import Mathlib

/-!
Verification of the KaartControle Helm-chart value comparator.

The Go program compares a provided Helm values tree against the chart
defaults, optionally using an overrides tree to suppress false positives,
and honouring an ignore list of path prefixes. We embed the dynamically
typed YAML value trees as a tagged inductive (`Value`), the maps as
association lists with unique keys (Go map iteration order is fixed by
the list order, which the spec leaves unspecified), and translate
`shouldIgnore` and `validateChartValues` from `cmd/main.go`, together
with the older variant of `validateChartValues` (no overrides argument,
unexpected-key reporting enabled).
-/

namespace KaartControle

/-- A dynamically typed YAML value: the shapes a decoded
`interface\x7b\x7d` takes in the Go program (nil, bool, int, string,
`[]interface\x7b\x7d`, `map[string]interface\x7b\x7d`). -/
inductive Value where
  | null : Value
  | boolVal (b : Bool) : Value
  | intVal (n : Int) : Value
  | strVal (s : String) : Value
  | seqVal (elems : List Value) : Value
  | mapVal (entries : List (String × Value)) : Value

/-- A values tree: the embedding of Go `map[string]interface\x7b\x7d`
as an association list (keys unique, iteration order fixed). -/
abbrev ValueTree := List (String × Value)

/-- Go map indexing `m[key]`: the first binding of `key`, if any. -/
def lookupVal : ValueTree → String → Option Value
  | [], _ => none
  | (k, v) :: rest, key => if k == key then some v else lookupVal rest key

/-- The name `%T` prints for each modelled Go dynamic type. -/
def typeName : Value → String
  | .null => "<nil>"
  | .boolVal _ => "bool"
  | .intVal _ => "int"
  | .strVal _ => "string"
  | .seqVal _ => "[]interface \x7b\x7d"
  | .mapVal _ => "map[string]interface \x7b\x7d"

/-- The runtime type tags `reflect.TypeOf` distinguishes for the
modelled values. -/
inductive GoType where
  | tBool : GoType
  | tInt : GoType
  | tString : GoType
  | tSeq : GoType
  | tMap : GoType
deriving DecidableEq

/-- `reflect.TypeOf`: `none` for a nil interface value. -/
def typeOf : Value → Option GoType
  | .null => none
  | .boolVal _ => some .tBool
  | .intVal _ => some .tInt
  | .strVal _ => some .tString
  | .seqVal _ => some .tSeq
  | .mapVal _ => some .tMap

mutual

/-- `reflect.DeepEqual` on the modelled values: structural equality,
with maps compared by length plus per-key lookup (order-insensitive,
as Go compares maps). -/
def deepEqual : Value → Value → Bool
  | .null, .null => true
  | .boolVal a, .boolVal b => a == b
  | .intVal a, .intVal b => a == b
  | .strVal a, .strVal b => a == b
  | .seqVal xs, .seqVal ys => deepEqualSeq xs ys
  | .mapVal xs, .mapVal ys => (xs.length == ys.length) && deepEqualEntries xs ys
  | _, _ => false

/-- Element-wise `reflect.DeepEqual` of two slices (false when the
lengths differ). -/
def deepEqualSeq : List Value → List Value → Bool
  | [], [] => true
  | x :: xs, y :: ys => deepEqual x y && deepEqualSeq xs ys
  | _, _ => false

/-- Each entry of the first map is found in the second with a
deep-equal value. -/
def deepEqualEntries : List (String × Value) → List (String × Value) → Bool
  | [], _ => true
  | (k, v) :: rest, other =>
    (match lookupVal other k with
     | some w => deepEqual v w
     | none => false) && deepEqualEntries rest other

end

/-- `strings.HasPrefix s p`: `s` starts with `p`. Modelled over the
character lists of the strings (for valid UTF-8 this coincides with
Go's byte-wise prefix test). -/
def strHasPrefix (s p : String) : Bool :=
  p.data.isPrefixOf s.data

/-- `shouldIgnore` from `cmd/main.go`: true when the path starts with
some entry of the ignore list (plain string prefix). -/
def shouldIgnore (path : String) (ignoreList : List String) : Bool :=
  ignoreList.any (fun ignore => strHasPrefix path ignore)

/-- The `fullKey` computation at the top of the loop body: the key
itself at the root, otherwise `pfx ++ "." ++ key`. -/
def fullKeyOf (pfx key : String) : String :=
  if pfx == "" then key else pfx ++ "." ++ key

/-- One reported finding, carrying the data the program prints:
an unexpected key, a type mismatch (expected and actual type names,
with expected `"map"` when a mapping was required), or a redundant
value. -/
inductive Issue where
  | unexpectedKey (path : String) : Issue
  | typeMismatch (path expected actual : String) : Issue
  | redundantValue (path : String) (value : Value) : Issue

/-- The path an issue was reported at. -/
def issuePath : Issue → String
  | .unexpectedKey p => p
  | .typeMismatch p _ _ => p
  | .redundantValue p _ => p

/-- The overrides sub-tree passed to the recursive call: the entry of
the overrides map at `key` when it is itself a mapping, otherwise the
empty map (also when no overrides map was supplied). -/
def overridesSubMap (ov : Option ValueTree) (key : String) : ValueTree :=
  match ov with
  | some ovs =>
    match lookupVal ovs key with
    | some (.mapVal sub) => sub
    | _ => []
  | none => []

/-- The redundant-value suppression test: an overrides map was
supplied, the key exists in it, and the override value is not
deep-equal to the provided value. -/
def redundantSuppressed (ov : Option ValueTree) (key : String) (pv : Value) : Bool :=
  match ov with
  | some ovs =>
    match lookupVal ovs key with
    | some overrideValue => !deepEqual overrideValue pv
    | none => false
  | none => false

/-- The scalar type-mismatch test: both values non-nil and their
`reflect.TypeOf` tags differ. -/
def scalarTypeMismatch (dv pv : Value) : Bool :=
  match typeOf dv, typeOf pv with
  | some dt, some pt => dt != pt
  | _, _ => false

/-- `validateChartValues` from `cmd/main.go` (current variant), as a
pure function returning the list of issues in traversal order. Per
provided entry: skip ignored paths; skip keys missing from the
defaults (the unexpected-key report is commented out in this variant);
recurse when default and provided are both mappings, passing the
overrides sub-map; report a type mismatch when a mapping was expected;
report a redundant value on deep equality unless suppressed by the
overrides tree; report a type mismatch for non-nil values of different
runtime types. -/
def validateChartValues : ValueTree → ValueTree → Option ValueTree → String → List String → List Issue
  | _, [], _, _, _ => []
  | dvs, (key, pv) :: rest, ov, pfx, il =>
    (if shouldIgnore (fullKeyOf pfx key) il then []
     else
       match lookupVal dvs key with
       | none => []
       | some dv =>
         match dv with
         | .mapVal dm =>
           match pv with
           | .mapVal pm =>
             validateChartValues dm pm (some (overridesSubMap ov key)) (fullKeyOf pfx key) il
           | _ => [Issue.typeMismatch (fullKeyOf pfx key) "map" (typeName pv)]
         | _ =>
           if deepEqual dv pv then
             if redundantSuppressed ov key pv then []
             else [Issue.redundantValue (fullKeyOf pfx key) pv]
           else if scalarTypeMismatch dv pv then
             [Issue.typeMismatch (fullKeyOf pfx key) (typeName dv) (typeName pv)]
           else [])
    ++ validateChartValues dvs rest ov pfx il
termination_by _d p _ov _pfx _il => sizeOf p

/-- The body of the loop of `validateChartValues` for a single
provided entry `(key, pv)`: the issues this one entry contributes. -/
def validateOne (dvs : ValueTree) (key : String) (pv : Value)
    (ov : Option ValueTree) (pfx : String) (il : List String) : List Issue :=
  if shouldIgnore (fullKeyOf pfx key) il then []
  else
    match lookupVal dvs key with
    | none => []
    | some dv =>
      match dv with
      | .mapVal dm =>
        match pv with
        | .mapVal pm =>
          validateChartValues dm pm (some (overridesSubMap ov key)) (fullKeyOf pfx key) il
        | _ => [Issue.typeMismatch (fullKeyOf pfx key) "map" (typeName pv)]
      | _ =>
        if deepEqual dv pv then
          if redundantSuppressed ov key pv then []
          else [Issue.redundantValue (fullKeyOf pfx key) pv]
        else if scalarTypeMismatch dv pv then
          [Issue.typeMismatch (fullKeyOf pfx key) (typeName dv) (typeName pv)]
        else []

namespace Legacy

/-- `validateChartValues` from the older variant of the program (the
unnamed source file with no overrides argument): identical walk, but a
key missing from the defaults is reported as an unexpected key, and a
redundant value is never suppressed. -/
def validateChartValues : ValueTree → ValueTree → String → List String → List Issue
  | _, [], _, _ => []
  | dvs, (key, pv) :: rest, pfx, il =>
    (if shouldIgnore (fullKeyOf pfx key) il then []
     else
       match lookupVal dvs key with
       | none => [Issue.unexpectedKey (fullKeyOf pfx key)]
       | some dv =>
         match dv with
         | .mapVal dm =>
           match pv with
           | .mapVal pm => validateChartValues dm pm (fullKeyOf pfx key) il
           | _ => [Issue.typeMismatch (fullKeyOf pfx key) "map" (typeName pv)]
         | _ =>
           if deepEqual dv pv then
             [Issue.redundantValue (fullKeyOf pfx key) pv]
           else if scalarTypeMismatch dv pv then
             [Issue.typeMismatch (fullKeyOf pfx key) (typeName dv) (typeName pv)]
           else [])
    ++ validateChartValues dvs rest pfx il
termination_by _d p _pfx _il => sizeOf p

/-- The loop body of the older `validateChartValues` for one provided
entry. -/
def validateOne (dvs : ValueTree) (key : String) (pv : Value)
    (pfx : String) (il : List String) : List Issue :=
  if shouldIgnore (fullKeyOf pfx key) il then []
  else
    match lookupVal dvs key with
    | none => [Issue.unexpectedKey (fullKeyOf pfx key)]
    | some dv =>
      match dv with
      | .mapVal dm =>
        match pv with
        | .mapVal pm => validateChartValues dm pm (fullKeyOf pfx key) il
        | _ => [Issue.typeMismatch (fullKeyOf pfx key) "map" (typeName pv)]
      | _ =>
        if deepEqual dv pv then
          [Issue.redundantValue (fullKeyOf pfx key) pv]
        else if scalarTypeMismatch dv pv then
          [Issue.typeMismatch (fullKeyOf pfx key) (typeName dv) (typeName pv)]
        else []

end Legacy

mutual

/-- The `issuesFound` accumulator of the Go program, threaded
explicitly: the value of the shared boolean after the call, given its
value before the call. Every branch that prints an issue stores
`true`; every other branch leaves the flag unchanged. -/
def validateFlag : ValueTree → ValueTree → Option ValueTree → String → Bool → List String → Bool
  | _, [], _, _, b, _ => b
  | dvs, (key, pv) :: rest, ov, pfx, b, il =>
    validateFlag dvs rest ov pfx (flagOne dvs key pv ov pfx b il) il
termination_by _d p _ov _pfx _b _il => sizeOf p

/-- The flag value after the loop body of `validateFlag` for a single
provided entry. -/
def flagOne (dvs : ValueTree) (key : String) (pv : Value) (ov : Option ValueTree)
    (pfx : String) (b : Bool) (il : List String) : Bool :=
  if shouldIgnore (fullKeyOf pfx key) il then b
  else
    match lookupVal dvs key with
    | none => b
    | some dv =>
      match dv with
      | .mapVal dm =>
        match pv with
        | .mapVal pm =>
          validateFlag dm pm (some (overridesSubMap ov key)) (fullKeyOf pfx key) b il
        | _ => true
      | _ =>
        if deepEqual dv pv then
          if redundantSuppressed ov key pv then b else true
        else if scalarTypeMismatch dv pv then true
        else b
termination_by sizeOf pv

end

/-- The number of entries of a provided tree, counted recursively
through nested mappings: the number of loop iterations the comparator
performs. -/
def treeSize : ValueTree → Nat
  | [] => 0
  | (_, .mapVal m) :: rest => 1 + treeSize m + treeSize rest
  | (_, _) :: rest => 1 + treeSize rest

/-- Big-step relation describing one run of `validateChartValues`:
`ValidateRel dvs pvs ov pfx il out` holds when a run of the comparator
on these inputs emits exactly the issue list `out`. One rule per
branch of the loop body. -/
inductive ValidateRel : ValueTree → ValueTree → Option ValueTree → String → List String → List Issue → Prop where
  | done (dvs : ValueTree) (ov : Option ValueTree) (pfx : String) (il : List String) :
      ValidateRel dvs [] ov pfx il []
  | skipIgnored (dvs : ValueTree) (key : String) (pv : Value) (rest : ValueTree)
      (ov : Option ValueTree) (pfx : String) (il : List String) (out : List Issue) :
      shouldIgnore (fullKeyOf pfx key) il = true →
      ValidateRel dvs rest ov pfx il out →
      ValidateRel dvs ((key, pv) :: rest) ov pfx il out
  | skipMissing (dvs : ValueTree) (key : String) (pv : Value) (rest : ValueTree)
      (ov : Option ValueTree) (pfx : String) (il : List String) (out : List Issue) :
      shouldIgnore (fullKeyOf pfx key) il = false →
      lookupVal dvs key = none →
      ValidateRel dvs rest ov pfx il out →
      ValidateRel dvs ((key, pv) :: rest) ov pfx il out
  | recurseMap (dvs : ValueTree) (key : String) (dm pm : ValueTree) (rest : ValueTree)
      (ov : Option ValueTree) (pfx : String) (il : List String) (sub out : List Issue) :
      shouldIgnore (fullKeyOf pfx key) il = false →
      lookupVal dvs key = some (.mapVal dm) →
      ValidateRel dm pm (some (overridesSubMap ov key)) (fullKeyOf pfx key) il sub →
      ValidateRel dvs rest ov pfx il out →
      ValidateRel dvs ((key, .mapVal pm) :: rest) ov pfx il (sub ++ out)
  | mapExpected (dvs : ValueTree) (key : String) (dm : ValueTree) (pv : Value)
      (rest : ValueTree) (ov : Option ValueTree) (pfx : String) (il : List String)
      (out : List Issue) :
      shouldIgnore (fullKeyOf pfx key) il = false →
      lookupVal dvs key = some (.mapVal dm) →
      typeOf pv ≠ some .tMap →
      ValidateRel dvs rest ov pfx il out →
      ValidateRel dvs ((key, pv) :: rest) ov pfx il
        (Issue.typeMismatch (fullKeyOf pfx key) "map" (typeName pv) :: out)
  | redundant (dvs : ValueTree) (key : String) (dv pv : Value) (rest : ValueTree)
      (ov : Option ValueTree) (pfx : String) (il : List String) (out : List Issue) :
      shouldIgnore (fullKeyOf pfx key) il = false →
      lookupVal dvs key = some dv →
      typeOf dv ≠ some .tMap →
      deepEqual dv pv = true →
      redundantSuppressed ov key pv = false →
      ValidateRel dvs rest ov pfx il out →
      ValidateRel dvs ((key, pv) :: rest) ov pfx il
        (Issue.redundantValue (fullKeyOf pfx key) pv :: out)
  | suppressed (dvs : ValueTree) (key : String) (dv pv : Value) (rest : ValueTree)
      (ov : Option ValueTree) (pfx : String) (il : List String) (out : List Issue) :
      shouldIgnore (fullKeyOf pfx key) il = false →
      lookupVal dvs key = some dv →
      typeOf dv ≠ some .tMap →
      deepEqual dv pv = true →
      redundantSuppressed ov key pv = true →
      ValidateRel dvs rest ov pfx il out →
      ValidateRel dvs ((key, pv) :: rest) ov pfx il out
  | mismatch (dvs : ValueTree) (key : String) (dv pv : Value) (rest : ValueTree)
      (ov : Option ValueTree) (pfx : String) (il : List String) (out : List Issue) :
      shouldIgnore (fullKeyOf pfx key) il = false →
      lookupVal dvs key = some dv →
      typeOf dv ≠ some .tMap →
      deepEqual dv pv = false →
      scalarTypeMismatch dv pv = true →
      ValidateRel dvs rest ov pfx il out →
      ValidateRel dvs ((key, pv) :: rest) ov pfx il
        (Issue.typeMismatch (fullKeyOf pfx key) (typeName dv) (typeName pv) :: out)
  | benign (dvs : ValueTree) (key : String) (dv pv : Value) (rest : ValueTree)
      (ov : Option ValueTree) (pfx : String) (il : List String) (out : List Issue) :
      shouldIgnore (fullKeyOf pfx key) il = false →
      lookupVal dvs key = some dv →
      typeOf dv ≠ some .tMap →
      deepEqual dv pv = false →
      scalarTypeMismatch dv pv = false →
      ValidateRel dvs rest ov pfx il out →
      ValidateRel dvs ((key, pv) :: rest) ov pfx il out

/-- No string occurs twice in the list: the key lists Go maps produce. -/
def allDistinct : List String → Bool
  | [] => true
  | k :: rest => (!rest.any (fun x => x == k)) && allDistinct rest

mutual

/-- Well-formedness of a value as decoded from YAML by the Go program:
every mapping occurring in it has pairwise distinct keys (a Go map
cannot bind a key twice). -/
def wfValue : Value → Bool
  | .mapVal m => allDistinct (m.map Prod.fst) && wfTree m
  | .seqVal xs => wfSeq xs
  | _ => true

/-- Every value bound in the tree is well formed. -/
def wfTree : ValueTree → Bool
  | [] => true
  | (_, v) :: rest => wfValue v && wfTree rest

/-- Every element of the sequence is well formed. -/
def wfSeq : List Value → Bool
  | [] => true
  | v :: rest => wfValue v && wfSeq rest

end

/-- A well-formed root tree: distinct keys at the root and well-formed
values throughout. -/
def wfRoot (m : ValueTree) : Bool :=
  allDistinct (m.map Prod.fst) && wfTree m

/-- The issue list predicted for comparing a tree against itself with
no overrides: in traversal order, exactly one redundant-value issue
for each non-ignored key holding a non-mapping value, descending
through mapping values and skipping ignored paths whole. Written from
the spec side of the amended claim, to be compared with the
comparator's output. -/
def expectedRedundantIssues : ValueTree → String → List String → List Issue
  | [], _, _ => []
  | (key, pv) :: rest, pfx, il =>
    (if shouldIgnore (fullKeyOf pfx key) il then []
     else
       match pv with
       | .mapVal pm => expectedRedundantIssues pm (fullKeyOf pfx key) il
       | _ => [Issue.redundantValue (fullKeyOf pfx key) pv])
    ++ expectedRedundantIssues rest pfx il
termination_by t _pfx _il => sizeOf t

/-- The number of comparator loop iterations a single provided value
induces below its key: the recursive entry count for a mapping, zero
otherwise. -/
def valSize : Value → Nat
  | .mapVal m => treeSize m
  | _ => 0

theorem validateChartValues_nil (dvs : ValueTree) (ov : Option ValueTree)
    (pfx : String) (il : List String) :
    validateChartValues dvs [] ov pfx il = [] := by
  simp [validateChartValues]

theorem validateChartValues_cons (dvs : ValueTree) (key : String) (pv : Value)
    (rest : ValueTree) (ov : Option ValueTree) (pfx : String) (il : List String) :
    validateChartValues dvs ((key, pv) :: rest) ov pfx il =
      validateOne dvs key pv ov pfx il ++ validateChartValues dvs rest ov pfx il := by
  rw [validateChartValues]
  rfl

theorem legacyValidateChartValues_cons (dvs : ValueTree) (key : String) (pv : Value)
    (rest : ValueTree) (pfx : String) (il : List String) :
    Legacy.validateChartValues dvs ((key, pv) :: rest) pfx il =
      Legacy.validateOne dvs key pv pfx il ++ Legacy.validateChartValues dvs rest pfx il := by
  rw [Legacy.validateChartValues]
  rfl

theorem treeSize_cons (key : String) (pv : Value) (rest : ValueTree) :
    treeSize ((key, pv) :: rest) = 1 + valSize pv + treeSize rest := by
  cases pv <;> simp [treeSize, valSize]

theorem typeOf_eq_none_iff (v : Value) : typeOf v = none ↔ v = .null := by
  cases v <;> simp [typeOf]

theorem typeOf_eq_tMap_iff (v : Value) : typeOf v = some GoType.tMap ↔ ∃ m, v = .mapVal m := by
  cases v <;> simp [typeOf]

theorem scalarTypeMismatch_iff (dv pv : Value) :
    scalarTypeMismatch dv pv = true ↔ dv ≠ .null ∧ pv ≠ .null ∧ typeOf dv ≠ typeOf pv := by
  cases dv <;> cases pv <;> simp [scalarTypeMismatch, typeOf]

theorem redundantSuppressed_iff (ov : Option ValueTree) (key : String) (pv : Value) :
    redundantSuppressed ov key pv = true ↔
      ∃ ovs w, ov = some ovs ∧ lookupVal ovs key = some w ∧ deepEqual w pv = false := by
  cases ov with
  | none => simp [redundantSuppressed]
  | some ovs =>
    cases h : lookupVal ovs key with
    | none => simp [redundantSuppressed, h]
    | some w => simp [redundantSuppressed, h]

theorem validateOne_scalar (dvs : ValueTree) (key : String) (pv dv : Value)
    (ov : Option ValueTree) (pfx : String) (il : List String)
    (hig : shouldIgnore (fullKeyOf pfx key) il = false)
    (hlk : lookupVal dvs key = some dv)
    (hnm : typeOf dv ≠ some GoType.tMap) :
    validateOne dvs key pv ov pfx il =
      (if deepEqual dv pv = true then
        if redundantSuppressed ov key pv = true then []
        else [Issue.redundantValue (fullKeyOf pfx key) pv]
      else if scalarTypeMismatch dv pv = true then
        [Issue.typeMismatch (fullKeyOf pfx key) (typeName dv) (typeName pv)]
      else []) := by
  cases dv <;> simp_all [validateOne, typeOf]

/-- C1: for a non-ignored key whose default value is not a mapping and
whose provided value deep-equals the default, the comparator emits the
redundant-value issue for the key precisely when it is NOT the case
that an overrides tree was supplied, the key exists in it, and the
override value differs from the provided value; in particular the
issue is still emitted when the override entry is absent or deep-equal
to the provided value. -/
theorem c1_redundant_iff_no_override_reset (dvs : ValueTree) (key : String)
    (pv dv : Value) (ov : Option ValueTree) (pfx : String) (il : List String)
    (hig : shouldIgnore (fullKeyOf pfx key) il = false)
    (hlk : lookupVal dvs key = some dv)
    (hnm : typeOf dv ≠ some GoType.tMap)
    (heq : deepEqual dv pv = true) :
    validateOne dvs key pv ov pfx il = [Issue.redundantValue (fullKeyOf pfx key) pv] ↔
      ¬ ∃ ovs w, ov = some ovs ∧ lookupVal ovs key = some w ∧ deepEqual w pv = false := by
  rw [validateOne_scalar dvs key pv dv ov pfx il hig hlk hnm, if_pos heq]
  by_cases hr : redundantSuppressed ov key pv = true
  · rw [if_pos hr]
    exact iff_of_false (by simp) (not_not_intro ((redundantSuppressed_iff ov key pv).mp hr))
  · rw [if_neg hr]
    exact iff_of_true rfl (fun hex => hr ((redundantSuppressed_iff ov key pv).mpr hex))

theorem c1_witness :
    validateOne [("a", Value.intVal 1)] "a" (Value.intVal 1) none "" [] =
      [Issue.redundantValue "a" (Value.intVal 1)] := by
  have h := (c1_redundant_iff_no_override_reset [("a", Value.intVal 1)] "a"
    (Value.intVal 1) (Value.intVal 1) none "" []
    (by simp [shouldIgnore])
    (by simp [lookupVal])
    (by simp [typeOf])
    (by simp [deepEqual])).mpr (by simp)
  simpa [fullKeyOf] using h

/-- C2 counterexample: in the current comparator of `cmd/main.go` a
provided key absent from the defaults produces no issue at all (the
unexpected-key report is commented out), even with no overrides tree
supplied, contradicting the claim that exactly one unexpected-key
issue is reported. -/
theorem c2_counterexample :
    validateChartValues [] [("a", Value.strVal "x")] none "" [] = [] := by
  simp [validateChartValues, shouldIgnore, lookupVal]

/-- C2 amended: a provided key absent from the defaults is skipped by
the current comparator with no issue and no recursion under it; the
older variant of the program reports exactly one unexpected-key issue
for it (and likewise recurses no further under it). -/
theorem c2_unexpected_key_split (dvs : ValueTree) (key : String) (pv : Value)
    (ov : Option ValueTree) (pfx : String) (il : List String)
    (hig : shouldIgnore (fullKeyOf pfx key) il = false)
    (hlk : lookupVal dvs key = none) :
    validateOne dvs key pv ov pfx il = [] ∧
      Legacy.validateOne dvs key pv pfx il = [Issue.unexpectedKey (fullKeyOf pfx key)] := by
  constructor <;> simp [validateOne, Legacy.validateOne, hig, hlk]

theorem c2_witness :
    validateOne [] "a" (Value.strVal "x") none "" [] = [] ∧
      Legacy.validateOne [] "a" (Value.strVal "x") "" [] = [Issue.unexpectedKey "a"] := by
  have h := c2_unexpected_key_split [] "a" (Value.strVal "x") none "" []
    (by simp [shouldIgnore]) (by simp [lookupVal])
  simpa [fullKeyOf] using h

/-- C5: for a non-ignored key whose default value is a mapping, the
comparator recurses with the full key as the new path when the
provided value is also a mapping, passing the overrides sub-map, which
is the override entry at the key when that entry is itself a mapping
and the empty mapping otherwise; when the provided value is not a
mapping, it emits exactly one type-mismatch issue reporting that a map
was expected together with the provided value's type name, and the
result contains no issue from below the key. -/
theorem c5_map_recursion_and_mismatch (dvs : ValueTree) (key : String) (pv : Value)
    (dm : ValueTree) (ov : Option ValueTree) (pfx : String) (il : List String)
    (hig : shouldIgnore (fullKeyOf pfx key) il = false)
    (hlk : lookupVal dvs key = some (.mapVal dm)) :
    (∀ pm, pv = .mapVal pm →
      validateOne dvs key pv ov pfx il =
        validateChartValues dm pm (some (overridesSubMap ov key)) (fullKeyOf pfx key) il) ∧
    (typeOf pv ≠ some GoType.tMap →
      validateOne dvs key pv ov pfx il =
        [Issue.typeMismatch (fullKeyOf pfx key) "map" (typeName pv)]) ∧
    (∀ ovs sub, ov = some ovs → lookupVal ovs key = some (.mapVal sub) →
      overridesSubMap ov key = sub) ∧
    (∀ ovs, ov = some ovs → (∀ sub, lookupVal ovs key ≠ some (.mapVal sub)) →
      overridesSubMap ov key = []) ∧
    (ov = none → overridesSubMap ov key = []) := by
  refine ⟨?_, ?_, ?_, ?_, ?_⟩
  · intro pm hpm
    subst hpm
    simp [validateOne, hig, hlk]
  · intro hnp
    cases pv <;> simp_all [validateOne, typeOf]
  · intro ovs sub h1 h2
    subst h1
    simp [overridesSubMap, h2]
  · intro ovs h1 hno
    subst h1
    cases h : lookupVal ovs key with
    | none => simp [overridesSubMap, h]
    | some w =>
      cases w <;> first
        | exact absurd h (hno _)
        | simp [overridesSubMap, h]
  · intro h
    subst h
    rfl

theorem c5_witness :
    validateOne [("m", Value.mapVal [("x", Value.intVal 1)])] "m" (Value.strVal "s")
      none "" [] = [Issue.typeMismatch "m" "map" "string"] := by
  have h := (c5_map_recursion_and_mismatch [("m", Value.mapVal [("x", Value.intVal 1)])]
    "m" (Value.strVal "s") [("x", Value.intVal 1)] none "" []
    (by simp [shouldIgnore]) (by simp [lookupVal])).2.1 (by simp [typeOf])
  simpa [fullKeyOf, typeName] using h

/-- C6: for a non-ignored key whose default value is not a mapping and
whose provided value does not deep-equal it, the comparator emits a
type-mismatch issue citing the default's and the provided's type names
when both values are non-nil and their runtime types differ, and emits
nothing when the types agree or either value is nil. -/
theorem c6_scalar_type_mismatch (dvs : ValueTree) (key : String) (pv dv : Value)
    (ov : Option ValueTree) (pfx : String) (il : List String)
    (hig : shouldIgnore (fullKeyOf pfx key) il = false)
    (hlk : lookupVal dvs key = some dv)
    (hnm : typeOf dv ≠ some GoType.tMap)
    (hne : deepEqual dv pv = false) :
    ((dv ≠ .null ∧ pv ≠ .null ∧ typeOf dv ≠ typeOf pv) →
      validateOne dvs key pv ov pfx il =
        [Issue.typeMismatch (fullKeyOf pfx key) (typeName dv) (typeName pv)]) ∧
    ((typeOf dv = typeOf pv ∨ dv = .null ∨ pv = .null) →
      validateOne dvs key pv ov pfx il = []) := by
  rw [validateOne_scalar dvs key pv dv ov pfx il hig hlk hnm, if_neg (by simp [hne])]
  constructor
  · intro h
    rw [if_pos ((scalarTypeMismatch_iff dv pv).mpr h)]
  · intro h
    rw [if_neg (fun hst => ?_)]
    obtain ⟨h1, h2, h3⟩ := (scalarTypeMismatch_iff dv pv).mp hst
    rcases h with h | h | h
    · exact h3 h
    · exact h1 h
    · exact h2 h

theorem scalarTypeMismatch_self (v : Value) : scalarTypeMismatch v v = false := by
  cases v <;> simp [scalarTypeMismatch, typeOf]

theorem allDistinct_lookup (m : ValueTree) (k : String) (u : Value)
    (hd : allDistinct (m.map Prod.fst) = true) (hm : (k, u) ∈ m) :
    lookupVal m k = some u := by
  induction m with
  | nil => cases hm
  | cons head rest ih =>
    obtain ⟨k0, v0⟩ := head
    rw [List.map_cons, allDistinct, Bool.and_eq_true] at hd
    obtain ⟨hnot, hrest⟩ := hd
    rcases List.mem_cons.mp hm with h | h
    · obtain ⟨rfl, rfl⟩ := Prod.mk.inj h
      simp [lookupVal]
    · have hk : k ∈ rest.map Prod.fst := List.mem_map.mpr ⟨(k, u), h, rfl⟩
      have hnot2 : ∀ x ∈ rest.map Prod.fst, ¬(x = k0) := by simpa using hnot
      have hne : ¬(k0 = k) := fun he => hnot2 k hk he.symm
      simp only [lookupVal]
      rw [if_neg (by simp [hne])]
      exact ih hrest h

theorem validateOne_cases (dvs : ValueTree) (key : String) (pv : Value)
    (ov : Option ValueTree) (pfx : String) (il : List String) :
    validateOne dvs key pv ov pfx il = [] ∨
    (shouldIgnore (fullKeyOf pfx key) il = false ∧
      ((∃ e a, validateOne dvs key pv ov pfx il =
          [Issue.typeMismatch (fullKeyOf pfx key) e a]) ∨
       validateOne dvs key pv ov pfx il =
          [Issue.redundantValue (fullKeyOf pfx key) pv] ∨
       (∃ dm pm, pv = .mapVal pm ∧ lookupVal dvs key = some (.mapVal dm) ∧
         validateOne dvs key pv ov pfx il =
           validateChartValues dm pm (some (overridesSubMap ov key)) (fullKeyOf pfx key) il))) := by
  by_cases hig : shouldIgnore (fullKeyOf pfx key) il = true
  · left
    simp [validateOne, hig]
  · rw [Bool.not_eq_true] at hig
    cases hlk : lookupVal dvs key with
    | none =>
      left
      simp [validateOne, hig, hlk]
    | some dv =>
      by_cases hdm : ∃ dm, dv = Value.mapVal dm
      · obtain ⟨dm, rfl⟩ := hdm
        by_cases hpm : ∃ pm, pv = Value.mapVal pm
        · obtain ⟨pm, rfl⟩ := hpm
          right
          refine ⟨hig, Or.inr (Or.inr ⟨dm, pm, rfl, rfl, ?_⟩)⟩
          simp [validateOne, hig, hlk]
        · right
          refine ⟨hig, Or.inl ⟨"map", typeName pv, ?_⟩⟩
          cases pv <;> simp_all [validateOne, hig, hlk]
      · have hnm : typeOf dv ≠ some GoType.tMap :=
          fun hcontra => hdm ((typeOf_eq_tMap_iff dv).mp hcontra)
        rw [validateOne_scalar dvs key pv dv ov pfx il hig hlk hnm]
        by_cases hde : deepEqual dv pv = true
        · rw [if_pos hde]
          by_cases hsup : redundantSuppressed ov key pv = true
          · left
            rw [if_pos hsup]
          · right
            exact ⟨hig, Or.inr (Or.inl (by rw [if_neg hsup]))⟩
        · rw [if_neg hde]
          by_cases hst : scalarTypeMismatch dv pv = true
          · right
            exact ⟨hig, Or.inl ⟨typeName dv, typeName pv, by rw [if_pos hst]⟩⟩
          · left
            rw [if_neg hst]

mutual

theorem wfValue_deepEqual_self (v : Value) (h : wfValue v = true) : deepEqual v v = true := by
  cases v with
  | null => simp [deepEqual]
  | boolVal b => simp [deepEqual]
  | intVal n => simp [deepEqual]
  | strVal s => simp [deepEqual]
  | seqVal xs =>
    simp only [wfValue] at h
    simp only [deepEqual]
    exact wfSeq_deepEqualSeq_self xs h
  | mapVal m =>
    simp only [wfValue, Bool.and_eq_true] at h
    simp only [deepEqual, Bool.and_eq_true]
    refine ⟨by simp, ?_⟩
    exact wfEntries_deepEqualEntries_self m m
      (fun k u hm => allDistinct_lookup m k u h.1 hm) h.2
termination_by sizeOf v

theorem wfSeq_deepEqualSeq_self (xs : List Value) (h : wfSeq xs = true) :
    deepEqualSeq xs xs = true := by
  match xs with
  | [] => simp [deepEqualSeq]
  | x :: rest =>
    simp only [wfSeq, Bool.and_eq_true] at h
    simp only [deepEqualSeq, Bool.and_eq_true]
    exact ⟨wfValue_deepEqual_self x h.1, wfSeq_deepEqualSeq_self rest h.2⟩
termination_by sizeOf xs

theorem wfEntries_deepEqualEntries_self (m0 m : ValueTree)
    (hlk : ∀ k u, (k, u) ∈ m0 → lookupVal m k = some u)
    (hw : wfTree m0 = true) : deepEqualEntries m0 m = true := by
  match m0 with
  | [] => simp [deepEqualEntries]
  | (k, u) :: rest =>
    simp only [wfTree, Bool.and_eq_true] at hw
    simp only [deepEqualEntries, Bool.and_eq_true]
    constructor
    · rw [hlk k u (List.mem_cons_self _ _)]
      exact wfValue_deepEqual_self u hw.1
    · exact wfEntries_deepEqualEntries_self rest m
        (fun k2 u2 hm2 => hlk k2 u2 (List.mem_cons_of_mem _ hm2)) hw.2
termination_by sizeOf m0

end

theorem expectedRedundantIssues_cons (key : String) (pv : Value) (rest : ValueTree)
    (pfx : String) (il : List String) :
    expectedRedundantIssues ((key, pv) :: rest) pfx il =
      (if shouldIgnore (fullKeyOf pfx key) il then []
       else
         match pv with
         | .mapVal pm => expectedRedundantIssues pm (fullKeyOf pfx key) il
         | _ => [Issue.redundantValue (fullKeyOf pfx key) pv])
      ++ expectedRedundantIssues rest pfx il := by
  cases pv with
  | mapVal pm => rw [expectedRedundantIssues]
  | null =>
    rw [expectedRedundantIssues]
    intro pm h
    exact Value.noConfusion h
  | boolVal b =>
    rw [expectedRedundantIssues]
    intro pm h
    exact Value.noConfusion h
  | intVal n =>
    rw [expectedRedundantIssues]
    intro pm h
    exact Value.noConfusion h
  | strVal s =>
    rw [expectedRedundantIssues]
    intro pm h
    exact Value.noConfusion h
  | seqVal xs =>
    rw [expectedRedundantIssues]
    intro pm h
    exact Value.noConfusion h

theorem overridesSubMap_empty (ov : Option ValueTree) (key : String)
    (hov : ∀ ovs, ov = some ovs → ovs = []) : overridesSubMap ov key = [] := by
  cases ov with
  | none => rfl
  | some ovs =>
    have h := hov ovs rfl
    subst h
    rfl

theorem redundantSuppressed_none_or_empty (ov : Option ValueTree) (key : String)
    (pv : Value) (hov : ∀ ovs, ov = some ovs → ovs = []) :
    redundantSuppressed ov key pv = false := by
  cases ov with
  | none => rfl
  | some ovs =>
    have h := hov ovs rfl
    subst h
    rfl

theorem validate_self_eq_expected (dvs pvs : ValueTree) (ov : Option ValueTree)
    (pfx : String) (il : List String) :
    (∀ key pv, (key, pv) ∈ pvs → lookupVal dvs key = some pv) →
    wfTree pvs = true →
    (∀ ovs, ov = some ovs → ovs = []) →
    validateChartValues dvs pvs ov pfx il = expectedRedundantIssues pvs pfx il := by
  induction dvs, pvs, ov, pfx, il using validateChartValues.induct with
  | case1 a b c d =>
    intro _ _ _
    rw [validateChartValues_nil]
    simp [expectedRedundantIssues]
  | case2 dvs key pv rest ov pfx il ih1 ih2 =>
    intro hH hwf hov
    rw [wfTree, Bool.and_eq_true] at hwf
    obtain ⟨hwf1, hwfr⟩ := hwf
    have hlk : lookupVal dvs key = some pv := hH key pv (List.mem_cons_self _ _)
    have hrest := ih2 (fun k u hm2 => hH k u (List.mem_cons_of_mem _ hm2)) hwfr hov
    rw [validateChartValues_cons, expectedRedundantIssues_cons]
    by_cases hig : shouldIgnore (fullKeyOf pfx key) il = true
    · have hone : validateOne dvs key pv ov pfx il = [] := by simp [validateOne, hig]
      rw [hone, if_pos hig, hrest]
    · rw [Bool.not_eq_true] at hig
      rw [if_neg (by simp [hig])]
      by_cases hm : ∃ pm, pv = Value.mapVal pm
      · obtain ⟨pm, rfl⟩ := hm
        rw [wfValue, Bool.and_eq_true] at hwf1
        have hone : validateOne dvs key (Value.mapVal pm) ov pfx il =
            validateChartValues pm pm (some (overridesSubMap ov key)) (fullKeyOf pfx key) il := by
          simp [validateOne, hig, hlk]
        have hov2 : ∀ ovs, some (overridesSubMap ov key) = some ovs → ovs = [] :=
          fun ovs h => (Option.some.inj h) ▸ overridesSubMap_empty ov key hov
        rw [hone, hrest,
          ih1 pm (fun k u hm2 => allDistinct_lookup pm k u hwf1.1 hm2) hwf1.2 hov2]
      · have hnm : typeOf pv ≠ some GoType.tMap :=
          fun hcontra => hm ((typeOf_eq_tMap_iff pv).mp hcontra)
        have hde : deepEqual pv pv = true := wfValue_deepEqual_self pv hwf1
        have hsup := redundantSuppressed_none_or_empty ov key pv hov
        have hone : validateOne dvs key pv ov pfx il =
            [Issue.redundantValue (fullKeyOf pfx key) pv] := by
          rw [validateOne_scalar dvs key pv pv ov pfx il hig hlk hnm,
            if_pos hde, if_neg (by simp [hsup])]
        rw [hone, hrest]
        cases pv with
        | mapVal pm => exact absurd ⟨pm, rfl⟩ hm
        | null => rfl
        | boolVal b => rfl
        | intVal n => rfl
        | strVal s => rfl
        | seqVal xs => rfl

theorem expectedRedundantIssues_shape (pvs : ValueTree) (pfx : String) (il : List String) :
    ∀ i ∈ expectedRedundantIssues pvs pfx il, ∃ p v, i = Issue.redundantValue p v := by
  match pvs with
  | [] =>
    intro i hi
    simp [expectedRedundantIssues] at hi
  | (key, pv) :: rest =>
    intro i hi
    rw [expectedRedundantIssues_cons] at hi
    rcases List.mem_append.mp hi with h1 | h2
    · by_cases hig : shouldIgnore (fullKeyOf pfx key) il = true
      · rw [if_pos hig] at h1
        cases h1
      · rw [if_neg hig] at h1
        cases pv with
        | mapVal pm => exact expectedRedundantIssues_shape pm (fullKeyOf pfx key) il i h1
        | null => exact ⟨_, _, List.mem_singleton.mp h1⟩
        | boolVal b => exact ⟨_, _, List.mem_singleton.mp h1⟩
        | intVal n => exact ⟨_, _, List.mem_singleton.mp h1⟩
        | strVal s => exact ⟨_, _, List.mem_singleton.mp h1⟩
        | seqVal xs => exact ⟨_, _, List.mem_singleton.mp h1⟩
    · exact expectedRedundantIssues_shape rest pfx il i h2
termination_by sizeOf pvs

/-- C3 counterexample: with defaults and provided both equal to the
tree binding key1 to value1 and no overrides, the comparator reports
one redundant-value issue, not zero issues; the repository's own test
(the redundant value case) expects issues to be found here. -/
theorem c3_counterexample :
    validateChartValues [("key1", Value.strVal "value1")]
      [("key1", Value.strVal "value1")] none "" [] =
      [Issue.redundantValue "key1" (Value.strVal "value1")] := by
  simp [validateChartValues, shouldIgnore, lookupVal, deepEqual, redundantSuppressed, fullKeyOf]

/-- C3 amended: when the provided tree equals the defaults tree (and,
as for every tree a Go map can represent, its mapping keys are
pairwise distinct) and no overrides are supplied, the comparator's
output is exactly `expectedRedundantIssues`: one redundant-value issue
per non-ignored non-mapping key, in traversal order; hence every
reported issue is a redundant-value issue, and zero issues are
reported precisely when there is no non-ignored non-mapping key. -/
theorem c3_self_comparison_exact (t : ValueTree) (pfx : String)
    (il : List String) (hwf : wfRoot t = true) :
    validateChartValues t t none pfx il = expectedRedundantIssues t pfx il ∧
    (∀ i ∈ validateChartValues t t none pfx il, ∃ p v, i = Issue.redundantValue p v) ∧
    (validateChartValues t t none pfx il = [] ↔ expectedRedundantIssues t pfx il = []) := by
  rw [wfRoot, Bool.and_eq_true] at hwf
  have heq := validate_self_eq_expected t t none pfx il
    (fun k u hm => allDistinct_lookup t k u hwf.1 hm) hwf.2
    (fun ovs h => Option.noConfusion h)
  refine ⟨heq, ?_, by rw [heq]⟩
  rw [heq]
  exact expectedRedundantIssues_shape t pfx il

theorem c3_witness :
    validateChartValues [("key1", Value.strVal "value1")]
        [("key1", Value.strVal "value1")] none "" [] =
      expectedRedundantIssues [("key1", Value.strVal "value1")] "" [] := by
  exact (c3_self_comparison_exact [("key1", Value.strVal "value1")] "" []
    (by simp [wfRoot, allDistinct, wfTree, wfValue])).1

/-- C4: `shouldIgnore` holds exactly when the path starts with some
entry of the ignore list, as a plain string prefix with no
path-segment boundary check, so the entry res matches the path
resources.cpu; and every issue the comparator emits lies at a path the
ignore list does not match, hence a matched key contributes no issue
at its own path nor at any nested path extending it (its subtree is
never walked). -/
theorem c4_ignore_semantics :
    (∀ (p : String) (il : List String),
      shouldIgnore p il = true ↔ ∃ e ∈ il, List.IsPrefix e.data p.data) ∧
    shouldIgnore "resources.cpu" ["res"] = true ∧
    (∀ (dvs pvs : ValueTree) (ov : Option ValueTree) (pfx : String) (il : List String),
      ∀ i ∈ validateChartValues dvs pvs ov pfx il, shouldIgnore (issuePath i) il = false) := by
  refine ⟨?_, by decide, ?_⟩
  · intro p il
    simp [shouldIgnore, List.any_eq_true, strHasPrefix, List.isPrefixOf_iff_prefix]
  · intro dvs pvs ov pfx il
    induction dvs, pvs, ov, pfx, il using validateChartValues.induct with
    | case1 a b c d =>
      intro i hi
      rw [validateChartValues_nil] at hi
      cases hi
    | case2 dvs key pv rest ov pfx il ih1 ih2 =>
      intro i hi
      rw [validateChartValues_cons] at hi
      rcases List.mem_append.mp hi with h1 | h2
      · rcases validateOne_cases dvs key pv ov pfx il with hc | ⟨hig, hc⟩
        · rw [hc] at h1
          cases h1
        · rcases hc with ⟨e, a, hc⟩ | hc | ⟨dm, pm, rfl, hlk, hc⟩
          · rw [hc, List.mem_singleton] at h1
            subst h1
            simpa [issuePath] using hig
          · rw [hc, List.mem_singleton] at h1
            subst h1
            simpa [issuePath] using hig
          · rw [hc] at h1
            exact ih1 dm i h1
      · exact ih2 i h2

theorem c4_witness :
    shouldIgnore (issuePath (Issue.typeMismatch "k" "string" "int")) ["z"] = false := by
  refine c4_ignore_semantics.2.2 [("k", Value.strVal "v")] [("k", Value.intVal 3)]
    none "" ["z"] (Issue.typeMismatch "k" "string" "int") ?_
  simp [validateChartValues, shouldIgnore, strHasPrefix, lookupVal, deepEqual,
    scalarTypeMismatch, typeOf, typeName, fullKeyOf, List.isPrefixOf]

theorem lookupVal_cons_ne (k0 : String) (v0 : Value) (d : ValueTree) (key : String)
    (h : ¬k0 = key) : lookupVal ((k0, v0) :: d) key = lookupVal d key := by
  simp [lookupVal, h]

theorem validateOne_defaults_congr (d1 d2 : ValueTree) (key : String) (pv : Value)
    (ov : Option ValueTree) (pfx : String) (il : List String)
    (h : lookupVal d1 key = lookupVal d2 key) :
    validateOne d1 key pv ov pfx il = validateOne d2 key pv ov pfx il := by
  unfold validateOne
  rw [h]

/-- C7: the walk is driven solely by the provided tree: an empty
provided tree yields no issues no matter the defaults, and adding to
the defaults a binding for a key that does not occur in the provided
tree leaves the comparator's output unchanged — a
present-in-defaults-but-missing key is never inspected and never
reported. -/
theorem c7_walk_driven_by_provided :
    (∀ (dvs : ValueTree) (ov : Option ValueTree) (pfx : String) (il : List String),
      validateChartValues dvs [] ov pfx il = []) ∧
    (∀ (k0 : String) (v0 : Value) (dvs pvs : ValueTree) (ov : Option ValueTree)
      (pfx : String) (il : List String),
      k0 ∉ pvs.map Prod.fst →
      validateChartValues ((k0, v0) :: dvs) pvs ov pfx il =
        validateChartValues dvs pvs ov pfx il) := by
  refine ⟨fun dvs ov pfx il => validateChartValues_nil dvs ov pfx il, ?_⟩
  intro k0 v0 dvs pvs ov pfx il h
  induction pvs with
  | nil => rw [validateChartValues_nil, validateChartValues_nil]
  | cons head rest ih =>
    obtain ⟨key, pv⟩ := head
    rw [List.map_cons, List.mem_cons] at h
    push_neg at h
    obtain ⟨h1, h2⟩ := h
    rw [validateChartValues_cons, validateChartValues_cons,
      validateOne_defaults_congr _ dvs key pv ov pfx il (lookupVal_cons_ne k0 v0 dvs key h1),
      ih h2]

theorem c7_witness :
    validateChartValues [("extra", Value.intVal 5), ("b", Value.strVal "x")]
      [("b", Value.strVal "y")] none "" [] =
    validateChartValues [("b", Value.strVal "x")] [("b", Value.strVal "y")] none "" [] := by
  exact c7_walk_driven_by_provided.2 "extra" (Value.intVal 5)
    [("b", Value.strVal "x")] [("b", Value.strVal "y")] none "" [] (by simp)

/-- C8: the comparator is a total function over in-memory trees — it
is defined for every input (totality is established by the accepted
recursion itself) and returns a plain issue list with no error
outcome — and its output is bounded by the size of the provided tree:
at most one issue per provided entry, counted recursively, so the run
is bounded in the size of the input. -/
theorem c8_total_linear_output (dvs pvs : ValueTree) (ov : Option ValueTree)
    (pfx : String) (il : List String) :
    (validateChartValues dvs pvs ov pfx il).length ≤ treeSize pvs := by
  induction dvs, pvs, ov, pfx, il using validateChartValues.induct with
  | case1 a b c d =>
    simp [validateChartValues_nil, treeSize]
  | case2 dvs key pv rest ov pfx il ih1 ih2 =>
    rw [validateChartValues_cons, List.length_append, treeSize_cons]
    have hone : (validateOne dvs key pv ov pfx il).length ≤ 1 + valSize pv := by
      rcases validateOne_cases dvs key pv ov pfx il with hc | ⟨hig, hc⟩
      · simp [hc]
      · rcases hc with ⟨e, a, hc⟩ | hc | ⟨dm, pm, rfl, hlk, hc⟩
        · simp [hc]
        · simp [hc]
        · rw [hc]
          have := ih1 dm
          simp only [valSize]
          omega
    omega

theorem c6_witness :
    validateOne [("k", Value.strVal "v")] "k" (Value.intVal 123) none "" [] =
      [Issue.typeMismatch "k" "string" "int"] := by
  have h := (c6_scalar_type_mismatch [("k", Value.strVal "v")] "k"
    (Value.intVal 123) (Value.strVal "v") none "" []
    (by simp [shouldIgnore]) (by simp [lookupVal]) (by simp [typeOf])
    (by simp [deepEqual])).1 (by simp [typeOf])
  simpa [fullKeyOf, typeName] using h

theorem validateFlag_nil (dvs : ValueTree) (ov : Option ValueTree) (pfx : String)
    (b : Bool) (il : List String) : validateFlag dvs [] ov pfx b il = b := by
  simp [validateFlag]

theorem validateFlag_cons (dvs : ValueTree) (key : String) (pv : Value)
    (rest : ValueTree) (ov : Option ValueTree) (pfx : String) (b : Bool)
    (il : List String) :
    validateFlag dvs ((key, pv) :: rest) ov pfx b il =
      validateFlag dvs rest ov pfx (flagOne dvs key pv ov pfx b il) il := by
  rw [validateFlag]

theorem flagOne_scalar (dvs : ValueTree) (key : String) (pv dv : Value)
    (ov : Option ValueTree) (pfx : String) (b : Bool) (il : List String)
    (hig : shouldIgnore (fullKeyOf pfx key) il = false)
    (hlk : lookupVal dvs key = some dv)
    (hnm : typeOf dv ≠ some GoType.tMap) :
    flagOne dvs key pv ov pfx b il =
      (if deepEqual dv pv = true then
        if redundantSuppressed ov key pv = true then b else true
      else if scalarTypeMismatch dv pv = true then true
      else b) := by
  cases dv <;> simp_all [flagOne, typeOf]

theorem flagOne_eq (dvs : ValueTree) (key : String) (pv : Value) (ov : Option ValueTree)
    (pfx : String) (b : Bool) (il : List String)
    (hrec : ∀ pm, pv = .mapVal pm →
      ∀ dm, validateFlag dm pm (some (overridesSubMap ov key)) (fullKeyOf pfx key) b il =
        (b || !(validateChartValues dm pm (some (overridesSubMap ov key)) (fullKeyOf pfx key) il).isEmpty)) :
    flagOne dvs key pv ov pfx b il = (b || !(validateOne dvs key pv ov pfx il).isEmpty) := by
  by_cases hig : shouldIgnore (fullKeyOf pfx key) il = true
  · simp [flagOne, validateOne, hig]
  · rw [Bool.not_eq_true] at hig
    cases hlk : lookupVal dvs key with
    | none => simp [flagOne, validateOne, hig, hlk]
    | some dv =>
      by_cases hdm : ∃ dm, dv = Value.mapVal dm
      · obtain ⟨dm, rfl⟩ := hdm
        by_cases hpm : ∃ pm, pv = Value.mapVal pm
        · obtain ⟨pm, rfl⟩ := hpm
          have h := hrec pm rfl dm
          simp [flagOne, validateOne, hig, hlk, h]
        · cases pv <;> simp_all [flagOne, validateOne, hig, hlk]
      · have hnm : typeOf dv ≠ some GoType.tMap :=
          fun hcontra => hdm ((typeOf_eq_tMap_iff dv).mp hcontra)
        rw [flagOne_scalar dvs key pv dv ov pfx b il hig hlk hnm,
          validateOne_scalar dvs key pv dv ov pfx il hig hlk hnm]
        by_cases hde : deepEqual dv pv = true
        · rw [if_pos hde, if_pos hde]
          by_cases hsup : redundantSuppressed ov key pv = true
          · rw [if_pos hsup, if_pos hsup]
            simp
          · rw [if_neg hsup, if_neg hsup]
            simp
        · rw [if_neg hde, if_neg hde]
          by_cases hst : scalarTypeMismatch dv pv = true
          · rw [if_pos hst, if_pos hst]
            simp
          · rw [if_neg hst, if_neg hst]
            simp

theorem flag_eq_issues (dvs pvs : ValueTree) (ov : Option ValueTree) (pfx : String)
    (b : Bool) (il : List String) :
    validateFlag dvs pvs ov pfx b il =
      (b || !(validateChartValues dvs pvs ov pfx il).isEmpty) := by
  match pvs with
  | [] => rw [validateFlag_nil, validateChartValues_nil] ; simp
  | (key, pv) :: rest =>
    rw [validateFlag_cons, validateChartValues_cons,
      flag_eq_issues dvs rest ov pfx (flagOne dvs key pv ov pfx b il) il,
      flagOne_eq dvs key pv ov pfx b il
        (fun pm hpm dm => flag_eq_issues dm pm (some (overridesSubMap ov key)) (fullKeyOf pfx key) b il)]
    cases validateOne dvs key pv ov pfx il <;> simp
termination_by sizeOf pvs

/-- C10: the issues-found accumulator, modelled by threading the Go
program's shared boolean through the recursion, is monotone and exact:
the flag after a call equals the flag before it OR-ed with whether the
call emitted at least one issue, every write to it stores true, so a
flag that is true on entry is true on exit and the flag becomes true
exactly when some issue has been emitted. -/
theorem c10_flag_accumulator :
    (∀ (dvs pvs : ValueTree) (ov : Option ValueTree) (pfx : String) (b : Bool)
      (il : List String),
      validateFlag dvs pvs ov pfx b il =
        (b || !(validateChartValues dvs pvs ov pfx il).isEmpty)) ∧
    (∀ (dvs pvs : ValueTree) (ov : Option ValueTree) (pfx : String) (il : List String),
      validateFlag dvs pvs ov pfx true il = true) := by
  refine ⟨flag_eq_issues, ?_⟩
  intro dvs pvs ov pfx il
  rw [flag_eq_issues]
  simp

theorem validateRel_sound (dvs pvs : ValueTree) (ov : Option ValueTree) (pfx : String)
    (il : List String) (out : List Issue) (h : ValidateRel dvs pvs ov pfx il out) :
    out = validateChartValues dvs pvs ov pfx il := by
  induction h with
  | done dvs ov pfx il =>
    rw [validateChartValues_nil]
  | skipIgnored dvs key pv rest ov pfx il out hig _ ih =>
    rw [validateChartValues_cons]
    have hone : validateOne dvs key pv ov pfx il = [] := by simp [validateOne, hig]
    rw [hone, List.nil_append, ih]
  | skipMissing dvs key pv rest ov pfx il out hig hlk _ ih =>
    rw [validateChartValues_cons]
    have hone : validateOne dvs key pv ov pfx il = [] := by simp [validateOne, hig, hlk]
    rw [hone, List.nil_append, ih]
  | recurseMap dvs key dm pm rest ov pfx il sub out hig hlk _ _ ihsub ihrest =>
    rw [validateChartValues_cons]
    have hone : validateOne dvs key (Value.mapVal pm) ov pfx il =
        validateChartValues dm pm (some (overridesSubMap ov key)) (fullKeyOf pfx key) il := by
      simp [validateOne, hig, hlk]
    rw [hone, ihsub, ihrest]
  | mapExpected dvs key dm pv rest ov pfx il out hig hlk hnp _ ih =>
    rw [validateChartValues_cons]
    have hone : validateOne dvs key pv ov pfx il =
        [Issue.typeMismatch (fullKeyOf pfx key) "map" (typeName pv)] := by
      cases pv <;> simp_all [validateOne, typeOf]
    rw [hone, ih]
    rfl
  | redundant dvs key dv pv rest ov pfx il out hig hlk hnm hde hsup _ ih =>
    rw [validateChartValues_cons,
      validateOne_scalar dvs key pv dv ov pfx il hig hlk hnm,
      if_pos hde, if_neg (by simp [hsup]), ih]
    rfl
  | suppressed dvs key dv pv rest ov pfx il out hig hlk hnm hde hsup _ ih =>
    rw [validateChartValues_cons,
      validateOne_scalar dvs key pv dv ov pfx il hig hlk hnm,
      if_pos hde, if_pos hsup, List.nil_append, ih]
  | mismatch dvs key dv pv rest ov pfx il out hig hlk hnm hde hst _ ih =>
    rw [validateChartValues_cons,
      validateOne_scalar dvs key pv dv ov pfx il hig hlk hnm,
      if_neg (by simp [hde]), if_pos hst, ih]
    rfl
  | benign dvs key dv pv rest ov pfx il out hig hlk hnm hde hst _ ih =>
    rw [validateChartValues_cons,
      validateOne_scalar dvs key pv dv ov pfx il hig hlk hnm,
      if_neg (by simp [hde]), if_neg (by simp [hst]), List.nil_append, ih]

theorem validateRel_total (dvs pvs : ValueTree) (ov : Option ValueTree) (pfx : String)
    (il : List String) :
    ValidateRel dvs pvs ov pfx il (validateChartValues dvs pvs ov pfx il) := by
  induction dvs, pvs, ov, pfx, il using validateChartValues.induct with
  | case1 a b c d =>
    rw [validateChartValues_nil]
    exact ValidateRel.done a b c d
  | case2 dvs key pv rest ov pfx il ih1 ih2 =>
    rw [validateChartValues_cons]
    by_cases hig : shouldIgnore (fullKeyOf pfx key) il = true
    · have hone : validateOne dvs key pv ov pfx il = [] := by simp [validateOne, hig]
      rw [hone, List.nil_append]
      exact ValidateRel.skipIgnored _ _ _ _ _ _ _ _ hig ih2
    · rw [Bool.not_eq_true] at hig
      cases hlk : lookupVal dvs key with
      | none =>
        have hone : validateOne dvs key pv ov pfx il = [] := by simp [validateOne, hig, hlk]
        rw [hone, List.nil_append]
        exact ValidateRel.skipMissing _ _ _ _ _ _ _ _ hig hlk ih2
      | some dv =>
        by_cases hdm : ∃ dm, dv = Value.mapVal dm
        · obtain ⟨dm, rfl⟩ := hdm
          by_cases hpm : ∃ pm, pv = Value.mapVal pm
          · obtain ⟨pm, rfl⟩ := hpm
            have hone : validateOne dvs key (Value.mapVal pm) ov pfx il =
                validateChartValues dm pm (some (overridesSubMap ov key)) (fullKeyOf pfx key) il := by
              simp [validateOne, hig, hlk]
            rw [hone]
            exact ValidateRel.recurseMap _ _ dm pm _ _ _ _ _ _ hig hlk (ih1 dm) ih2
          · have hone : validateOne dvs key pv ov pfx il =
                [Issue.typeMismatch (fullKeyOf pfx key) "map" (typeName pv)] := by
              cases pv <;> simp_all [validateOne]
            have hnp : typeOf pv ≠ some GoType.tMap :=
              fun hcontra => hpm ((typeOf_eq_tMap_iff pv).mp hcontra)
            rw [hone]
            exact ValidateRel.mapExpected _ _ dm _ _ _ _ _ _ hig hlk hnp ih2
        · have hnm : typeOf dv ≠ some GoType.tMap :=
            fun hcontra => hdm ((typeOf_eq_tMap_iff dv).mp hcontra)
          rw [validateOne_scalar dvs key pv dv ov pfx il hig hlk hnm]
          by_cases hde : deepEqual dv pv = true
          · rw [if_pos hde]
            by_cases hsup : redundantSuppressed ov key pv = true
            · rw [if_pos hsup, List.nil_append]
              exact ValidateRel.suppressed _ _ dv _ _ _ _ _ _ hig hlk hnm hde hsup ih2
            · have hsup2 : redundantSuppressed ov key pv = false := by
                rwa [Bool.not_eq_true] at hsup
              rw [if_neg hsup]
              exact ValidateRel.redundant _ _ dv _ _ _ _ _ _ hig hlk hnm hde hsup2 ih2
          · have hde2 : deepEqual dv pv = false := by rwa [Bool.not_eq_true] at hde
            rw [if_neg hde]
            by_cases hst : scalarTypeMismatch dv pv = true
            · rw [if_pos hst]
              exact ValidateRel.mismatch _ _ dv _ _ _ _ _ _ hig hlk hnm hde2 hst ih2
            · have hst2 : scalarTypeMismatch dv pv = false := by
                rwa [Bool.not_eq_true] at hst
              rw [if_neg hst, List.nil_append]
              exact ValidateRel.benign _ _ dv _ _ _ _ _ _ hig hlk hnm hde2 hst2 ih2

/-- C9: the comparison is deterministic given the fixed traversal
order of the embedded trees: any two runs of the comparator (runs
modelled by the big-step relation mirroring the loop) on identical
inputs produce the same issue list, hence the same issues-found
boolean; moreover a run producing the comparator's output always
exists. -/
theorem c9_deterministic_runs :
    (∀ (dvs pvs : ValueTree) (ov : Option ValueTree) (pfx : String) (il : List String)
      (out1 out2 : List Issue),
      ValidateRel dvs pvs ov pfx il out1 → ValidateRel dvs pvs ov pfx il out2 →
      out1 = out2 ∧ out1.isEmpty = out2.isEmpty) ∧
    (∀ (dvs pvs : ValueTree) (ov : Option ValueTree) (pfx : String) (il : List String),
      ValidateRel dvs pvs ov pfx il (validateChartValues dvs pvs ov pfx il)) := by
  constructor
  · intro dvs pvs ov pfx il out1 out2 h1 h2
    have e1 := validateRel_sound dvs pvs ov pfx il out1 h1
    have e2 := validateRel_sound dvs pvs ov pfx il out2 h2
    refine ⟨e1.trans e2.symm, ?_⟩
    rw [e1, e2]
  · exact validateRel_total

theorem c9_witness :
    validateChartValues [("key1", Value.strVal "value1")]
        [("key1", Value.strVal "value1")] none "" [] =
      validateChartValues [("key1", Value.strVal "value1")]
        [("key1", Value.strVal "value1")] none "" [] := by
  exact (c9_deterministic_runs.1 _ _ none "" [] _ _
    (c9_deterministic_runs.2 [("key1", Value.strVal "value1")]
      [("key1", Value.strVal "value1")] none "" [])
    (c9_deterministic_runs.2 [("key1", Value.strVal "value1")]
      [("key1", Value.strVal "value1")] none "" [])).1

end KaartControle
